import Mathlib

/-!
Verification of the core behavioural claims of the `void` terminal music
player, formalised against a shallow Lean embedding of its Rust sources.

The embedding follows the source files:
  * `src/queue/mod.rs`      — the `Queue` playlist model,
  * `src/player/mpv.rs`     — the mpv IPC transport (request ids, reply decoding),
  * `src/storage/mod.rs`    — the stream-URL cache,
  * `src/app/mod.rs`        — the reducer (search pagination, network errors,
                              the stream-resolution job),
  * `src/app/state.rs`      — `ScreenListState` and `Toast`.

Machine integers (`usize`, `u64`) are modelled as `Nat` with explicit
`% 2^64` where the source can wrap; JSON numbers are modelled as `Int`
(no claim here depends on float semantics); the `rand` shuffle is modelled
as an arbitrary function `List Nat → List Nat` together with the hypothesis
— guaranteed by `rand::seq::SliceRandom::shuffle` — that it permutes its
input.
-/

namespace VoidApp

/-- A track reference, from `src/ytm/models.rs` (`Track`). -/
structure Track where
  video_id : String
  title : String
  artists : List String
  album : Option String
  duration_seconds : Option Nat
deriving DecidableEq

/-- The playlist queue, from `src/queue/mod.rs` (`struct Queue`). -/
structure Queue where
  tracks : List Track
  current_index : Option Nat
  shuffle_enabled : Bool
  shuffle_order : List Nat
deriving DecidableEq

/-- The random in-place shuffle of `rand::seq::SliceRandom` is modelled as an
arbitrary reordering function supplied to each rebuild. -/
def ShuffleFn : Type := List Nat → List Nat

/-- The guarantee the `rand` crate gives for `shuffle`: the result is a
permutation of the input. -/
def permValid (f : ShuffleFn) : Prop := ∀ l : List Nat, List.Perm (f l) l

/-- `Vec::swap i j` on a list (used by `rebuild_shuffle_order`); out-of-range
indices never occur at the call site, where this is the identity. -/
def listSwap (l : List Nat) (i j : Nat) : List Nat :=
  match l[i]?, l[j]? with
  | some a, some b => (l.set i b).set j a
  | _, _ => l

namespace Queue

/-- `Queue::new` / `Queue::default`. -/
def new : Queue := ⟨[], none, false, []⟩

/-- `Queue::len`. -/
def len (q : Queue) : Nat := q.tracks.length

/-- The `// If we have a current track, make sure it is at the front` step of
`Queue::rebuild_shuffle_order`. -/
def placeCurrentFirst (current : Nat) (σ : List Nat) : List Nat :=
  match σ.findIdx? (fun x => x == current) with
  | some pos => listSwap σ 0 pos
  | none => σ

/-- The new shuffle order computed by `Queue::rebuild_shuffle_order`, with
the random shuffle `f` passed in. -/
def rebuiltOrder (f : ShuffleFn) (q : Queue) : List Nat :=
  if q.shuffle_enabled = false ∨ q.tracks = [] then
    []
  else
    match q.current_index with
    | some current => placeCurrentFirst current (f (List.range q.tracks.length))
    | none => f (List.range q.tracks.length)

/-- `Queue::rebuild_shuffle_order`: only the `shuffle_order` field changes. -/
def rebuild_shuffle_order (f : ShuffleFn) (q : Queue) : Queue :=
  { q with shuffle_order := rebuiltOrder f q }

/-- `Queue::add`. -/
def add (f : ShuffleFn) (t : Track) (q : Queue) : Queue :=
  rebuild_shuffle_order f { q with tracks := q.tracks ++ [t] }

/-- `Queue::add_many`. -/
def add_many (f : ShuffleFn) (ts : List Track) (q : Queue) : Queue :=
  rebuild_shuffle_order f { q with tracks := q.tracks ++ ts }

/-- `Queue::replace`. -/
def replace (f : ShuffleFn) (ts : List Track) (q : Queue) : Queue :=
  rebuild_shuffle_order f
    { q with
      tracks := ts
      current_index := if ts = [] then none else some 0 }

/-- The `// Adjust current_index if needed` block of `Queue::remove`, as a
function of the old current index, the removed index and the remaining
tracks. -/
def removeAdjust (cur : Option Nat) (index : Nat) (tracks' : List Track) : Option Nat :=
  match cur with
  | some current =>
    if index < current then
      some (current - 1)
    else if index = current then
      if tracks' = [] then none
      else if tracks'.length ≤ current then some (tracks'.length - 1)
      else some current
    else some current
  | none => none

/-- `Queue::remove`: returns the removed track and the new queue. -/
def remove (f : ShuffleFn) (index : Nat) (q : Queue) : Option Track × Queue :=
  if q.tracks.length ≤ index then
    (none, q)
  else
    (q.tracks[index]?,
      rebuild_shuffle_order f
        { q with
          tracks := q.tracks.eraseIdx index
          current_index :=
            removeAdjust q.current_index index (q.tracks.eraseIdx index) })

/-- `Queue::clear`. -/
def clear (q : Queue) : Queue :=
  { q with tracks := [], current_index := none, shuffle_order := [] }

/-- The `Vec::remove` + `Vec::insert` pair of `Queue::move_track`. -/
def movedTracks (tracks : List Track) (fromIdx toIdx : Nat) : List Track :=
  match tracks[fromIdx]? with
  | some t => List.insertIdx toIdx t (tracks.eraseIdx fromIdx)
  | none => tracks

/-- The `// Adjust current_index if needed` block of `Queue::move_track`. -/
def moveAdjust (cur : Option Nat) (fromIdx toIdx : Nat) : Option Nat :=
  match cur with
  | some current =>
    if fromIdx = current then some toIdx
    else if fromIdx < current ∧ current ≤ toIdx then some (current - 1)
    else if current < fromIdx ∧ toIdx ≤ current then some (current + 1)
    else some current
  | none => none

/-- `Queue::move_track`. -/
def move_track (f : ShuffleFn) (fromIdx toIdx : Nat) (q : Queue) : Queue :=
  if q.tracks.length ≤ fromIdx ∨ q.tracks.length ≤ toIdx ∨ fromIdx = toIdx then
    q
  else
    rebuild_shuffle_order f
      { q with
        tracks := movedTracks q.tracks fromIdx toIdx
        current_index := moveAdjust q.current_index fromIdx toIdx }

/-- `Queue::toggle_shuffle`: the flag is flipped, and the order rebuilt
exactly when the new flag value is true. -/
def toggle_shuffle (f : ShuffleFn) (q : Queue) : Queue :=
  if !q.shuffle_enabled then
    rebuild_shuffle_order f { q with shuffle_enabled := !q.shuffle_enabled }
  else
    { q with shuffle_enabled := !q.shuffle_enabled }

/-- `Queue::set_current`. -/
def set_current (index : Nat) (q : Queue) : Queue :=
  if index < q.tracks.length then { q with current_index := some index } else q

/-- `Queue::current_track`. -/
def current_track (q : Queue) : Option Track :=
  q.current_index.bind (fun i => q.tracks[i]?)

/-- `Queue::next_index`. -/
def next_index (q : Queue) (current : Nat) : Option Nat :=
  if q.tracks = [] then none
  else if q.shuffle_enabled ∧ q.shuffle_order ≠ [] then
    match q.shuffle_order.findIdx? (fun x => x == current) with
    | some pos =>
      if pos + 1 < q.shuffle_order.length then q.shuffle_order[pos + 1]? else none
    | none => none
  else if current + 1 < q.tracks.length then some (current + 1) else none

/-- `Queue::prev_index`. -/
def prev_index (q : Queue) (current : Nat) : Option Nat :=
  if q.tracks = [] then none
  else if q.shuffle_enabled ∧ q.shuffle_order ≠ [] then
    match q.shuffle_order.findIdx? (fun x => x == current) with
    | some pos =>
      if 0 < pos then q.shuffle_order[pos - 1]? else none
    | none => none
  else if 0 < current then some (current - 1) else none

/-- `Queue::advance`: returns the new current track and the new queue. -/
def advance (q : Queue) : Option Track × Queue :=
  match q.current_index with
  | none => (none, q)
  | some current =>
    match q.next_index current with
    | none => (none, q)
    | some n => (q.tracks[n]?, { q with current_index := some n })

/-- `Queue::go_back`: returns the new current track and the new queue. -/
def go_back (q : Queue) : Option Track × Queue :=
  match q.current_index with
  | none => (none, q)
  | some current =>
    match q.prev_index current with
    | none => (none, q)
    | some p => (q.tracks[p]?, { q with current_index := some p })

/-- `Queue::is_at_end`. -/
def is_at_end (q : Queue) : Bool :=
  match q.current_index with
  | some i =>
    if q.shuffle_enabled ∧ q.shuffle_order ≠ [] then
      q.shuffle_order.findIdx? (fun x => x == i) == some (q.shuffle_order.length - 1)
    else
      decide (q.tracks.length - 1 ≤ i)
  | none => true

/-- `Queue::is_at_start`. -/
def is_at_start (q : Queue) : Bool :=
  match q.current_index with
  | some i =>
    if q.shuffle_enabled ∧ q.shuffle_order ≠ [] then
      q.shuffle_order.findIdx? (fun x => x == i) == some 0
    else
      i == 0
  | none => true

end Queue

/-- The mutating queue operations, used to quantify over arbitrary
operation sequences. -/
inductive QueueOp where
  | add (t : Track)
  | add_many (ts : List Track)
  | replace (ts : List Track)
  | remove (index : Nat)
  | clear
  | move_track (fromIdx toIdx : Nat)
  | toggle_shuffle
  | set_current (index : Nat)
  | advance
  | go_back
deriving DecidableEq

/-- Apply one operation; the `ShuffleFn` stands for the fresh randomness the
operation consumes if it rebuilds the shuffle order. -/
def applyOp (f : ShuffleFn) (op : QueueOp) (q : Queue) : Queue :=
  match op with
  | .add t => Queue.add f t q
  | .add_many ts => Queue.add_many f ts q
  | .replace ts => Queue.replace f ts q
  | .remove i => (Queue.remove f i q).2
  | .clear => Queue.clear q
  | .move_track a b => Queue.move_track f a b q
  | .toggle_shuffle => Queue.toggle_shuffle f q
  | .set_current i => Queue.set_current i q
  | .advance => (Queue.advance q).2
  | .go_back => (Queue.go_back q).2

/-- Run a sequence of operations, each with its own shuffle randomness. -/
def runOps (ops : List (ShuffleFn × QueueOp)) (q : Queue) : Queue :=
  match ops with
  | [] => q
  | p :: rest => runOps rest (applyOp p.1 p.2 q)

/-- Every shuffle function in the sequence permutes its input. -/
def permsValid (ops : List (ShuffleFn × QueueOp)) : Prop :=
  ∀ p ∈ ops, permValid p.1

/-- Decidable check of the §3 queue invariant: the current index, when
present, is below the queue length. -/
def currentIndexOk (q : Queue) : Bool :=
  match q.current_index with
  | some c => decide (c < q.tracks.length)
  | none => true

/-- Decidable check of the §3 shuffle invariant: with shuffle enabled and a
non-empty track list, the shuffle order is a permutation of `[0, length)`. -/
def shuffleOrderOk (q : Queue) : Bool :=
  if q.shuffle_enabled ∧ q.tracks ≠ [] then
    decide (List.Perm q.shuffle_order (List.range q.tracks.length))
  else true

/-! ### JSON values and the mpv IPC transport (`src/player/mpv.rs`) -/

/-- A `serde_json::Value`; numbers are modelled as `Int` (no claim here
depends on float semantics). -/
inductive Json where
  | null
  | bool (b : Bool)
  | num (n : Int)
  | str (s : String)
  | arr (items : List Json)
  | obj (fields : List (String × Json))

/-- Assoc-list lookup used for `serde_json::Value::get` on objects. -/
def lookupField : List (String × Json) → String → Option Json
  | [], _ => none
  | (k, v) :: rest, key => if k = key then some v else lookupField rest key

namespace Json

/-- `Value::get(key)`. -/
def get (v : Json) (key : String) : Option Json :=
  match v with
  | .obj fields => lookupField fields key
  | _ => none

/-- `Value::as_str`. -/
def as_str (v : Json) : Option String :=
  match v with
  | .str s => some s
  | _ => none

/-- `Value::as_f64` (numbers are `Int` in this model). -/
def as_f64 (v : Json) : Option Int :=
  match v with
  | .num n => some n
  | _ => none

/-- `Value::as_bool`. -/
def as_bool (v : Json) : Option Bool :=
  match v with
  | .bool b => some b
  | _ => none

/-- Whether the value is a JSON object (`Value::Object`). -/
def isObj (v : Json) : Bool :=
  match v with
  | .obj _ => true
  | _ => false

end Json

/-- `PlayerEvent` from `src/app/events.rs`; the `f64` payloads are `Int`
here. -/
inductive PlayerEvent where
  | started
  | paused
  | position (seconds : Int)
  | duration (seconds : Int)
  | ended
  | error (msg : String)
deriving DecidableEq

/-- Whether a player event is an `Error` event. -/
def isErrorEvent (pe : PlayerEvent) : Bool :=
  match pe with
  | .error _ => true
  | _ => false

/-- `map_mpv_event` from `src/player/mpv.rs`. -/
def map_mpv_event (v : Json) : Option PlayerEvent :=
  match (v.get "event").bind Json.as_str with
  | none => none
  | some ev =>
    match ev with
    | "property-change" =>
      match (v.get "name").bind Json.as_str with
      | none => none
      | some name =>
        match name with
        | "time-pos" =>
          match v.get "data" with
          | none => none
          | some d => some (.position ((d.as_f64).getD 0))
        | "duration" =>
          match v.get "data" with
          | none => none
          | some d => some (.duration ((d.as_f64).getD 0))
        | "pause" =>
          match v.get "data" with
          | none => none
          | some d => some (if (d.as_bool).getD false then .paused else .started)
        | "eof-reached" =>
          match v.get "data" with
          | none => none
          | some d => if (d.as_bool).getD false then some .ended else none
        | _ => none
    | "end-file" =>
      if ((v.get "reason").bind Json.as_str).getD "" = "error" then
        some (.error ("mpv end-file error: " ++ ((v.get "error").bind Json.as_str).getD "unknown"))
      else
        some .ended
    | "log-message" =>
      match (v.get "level").bind Json.as_str with
      | none => none
      | some level =>
        match (v.get "text").bind Json.as_str with
        | none => none
        | some text =>
          if (level = "warn" ∨ level = "error") ∧ text.trim ≠ "" then
            some (.error ("mpv " ++ level ++ ": " ++ text.trim))
          else
            none
    | _ => none

/-- The events sent for one decoded JSON line by `read_events_loop`:
first the command-reply error check, then `map_mpv_event`. -/
def lineEvents (v : Json) : List PlayerEvent :=
  (match v.get "request_id", (v.get "error").bind Json.as_str with
   | some _, some errS =>
     if errS ≠ "success" then [.error ("mpv ipc error: " ++ errS)] else []
   | _, _ => []) ++
  (match map_mpv_event v with
   | some pe => [pe]
   | none => [])

/-- `2^64`, the wrap-around modulus of the `AtomicU64` request-id counter. -/
def u64Mod : Nat := 2 ^ 64

/-- The request-id state of `MpvHandle` (`request_id: AtomicU64`),
initialised to 1 in `MpvHandle::spawn`. -/
structure MpvState where
  request_id : Nat
deriving DecidableEq

/-- `MpvHandle::command`: tag the outgoing value with the next request id
(when the caller supplied none and the value is an object), bumping the
counter with wrap-around `fetch_add` semantics. Returns the written value
and the new state. -/
def mpvCommand (s : MpvState) (v : Json) : Json × MpvState :=
  if (v.get "request_id").isNone then
    (match v with
     | .obj fields => Json.obj (fields ++ [("request_id", .num (Int.ofNat s.request_id))])
     | other => other,
     { request_id := (s.request_id + 1) % u64Mod })
  else
    (v, s)

/-- Send a sequence of commands through `MpvHandle::command`, collecting the
values written to the socket. -/
def runCommands (s : MpvState) (vs : List Json) : List Json × MpvState :=
  match vs with
  | [] => ([], s)
  | v :: rest =>
    ((mpvCommand s v).1 :: (runCommands (mpvCommand s v).2 rest).1,
     (runCommands (mpvCommand s v).2 rest).2)

/-- The request id carried by an outgoing value, if any. -/
def reqIdOf (v : Json) : Option Int :=
  (v.get "request_id").bind Json.as_f64

/-- `MpvHandle::load_url`'s command payload. -/
def loadfileCmd (url : String) : Json :=
  .obj [("command", .arr [.str "loadfile", .str url, .str "replace"])]

/-- `MpvHandle::toggle_pause`'s command payload. -/
def togglePauseCmd : Json :=
  .obj [("command", .arr [.str "cycle", .str "pause"])]

/-- `MpvHandle::seek_relative`'s command payload. -/
def seekRelativeCmd (seconds : Int) : Json :=
  .obj [("command", .arr [.str "seek", .num seconds, .str "relative"])]

/-- `MpvHandle::set_volume`'s command payload. -/
def setVolumeCmd (volume : Nat) : Json :=
  .obj [("command", .arr [.str "set_property", .str "volume", .num (Int.ofNat volume)])]

/-! ### The stream-URL cache (`src/storage/mod.rs`) and the
stream-resolution job (`src/app/mod.rs`, `Action::Activate`) -/

/-- The `stream_cache` table: `video_id ↦ (url, expires_at)`
(`video_id` is the primary key). -/
def StreamCache : Type := List (String × String × Int)

/-- `Storage::get_stream_url`: the cached URL, provided its expiry is still
in the future. -/
def get_stream_url (cache : StreamCache) (video_id : String) (now_unix : Int) :
    Option String :=
  match cache with
  | [] => none
  | (vid, url, exp) :: rest =>
    if vid = video_id then
      if now_unix < exp then some url else none
    else
      get_stream_url rest video_id now_unix

/-- `Storage::cache_stream_url`: insert-or-update keyed by `video_id`. -/
def cache_stream_url (cache : StreamCache) (video_id url : String)
    (expires_at now_unix : Int) : StreamCache :=
  match cache with
  | [] => [(video_id, url, expires_at)]
  | (vid, u, e) :: rest =>
    if vid = video_id then
      (vid, url, expires_at) :: rest
    else
      (vid, u, e) :: cache_stream_url rest video_id url expires_at now_unix

/-- One observable step of the stream-resolution job. -/
inductive StreamStep where
  | resolveCall (video_id : String)
  | cacheWrite (video_id url : String) (expires_at updated_at : Int)
  | emitResolved (video_id url : String)
  | emitError (msg : String)
deriving DecidableEq

/-- The stream-resolution job spawned on `Action::Activate`: consult the
cache (expiry-checked); on a miss perform one external resolution, and on
its success write the URL back with a one-hour TTL before emitting
`ResolvedStream`. `resolver` is the outcome `resolve_audio_url` would
produce if called. -/
def streamResolutionJob (cache : StreamCache) (now : Int) (video_id : String)
    (resolver : Except String String) : List StreamStep :=
  match get_stream_url cache video_id now with
  | some url => [.emitResolved video_id url]
  | none =>
    match resolver with
    | .ok url =>
      [.resolveCall video_id,
       .cacheWrite video_id url (now + 3600) now,
       .emitResolved video_id url]
    | .error e => [.resolveCall video_id, .emitError e]

/-- Count of external-resolution calls in a job trace. -/
def resolveCallCount (steps : List StreamStep) : Nat :=
  steps.countP (fun s => match s with | .resolveCall _ => true | _ => false)

/-! ### `ScreenListState`, `Toast` (`src/app/state.rs`) and the reducer
slices used by the pagination and error-handling claims (`src/app/mod.rs`) -/

/-- `ScreenListState` (the `search_items` field is omitted: none of the
modelled operations touch it). -/
structure ScreenListState where
  items : List String
  tracks : List Track
  selected : Nat
  scroll_offset : Nat
  loading : Bool
  loaded : Bool
  continuation : Option String
  has_more : Bool
  loading_more : Bool
deriving DecidableEq

namespace ScreenListState

/-- `ScreenListState::new` / `Default`. -/
def new : ScreenListState :=
  { items := [], tracks := [], selected := 0, scroll_offset := 0,
    loading := false, loaded := false, continuation := none,
    has_more := false, loading_more := false }

/-- The display string built for a track by `set_tracks` / `append_tracks`. -/
def trackDisplay (t : Track) : String :=
  if t.artists = [] then t.title
  else t.title ++ " - " ++ String.intercalate ", " t.artists

/-- `ScreenListState::select_next`. -/
def select_next (s : ScreenListState) : ScreenListState :=
  if s.items ≠ [] then
    { s with selected := min (s.selected + 1) (s.items.length - 1) }
  else s

/-- `ScreenListState::update_scroll`. -/
def update_scroll (s : ScreenListState) (visible_height : Nat) : ScreenListState :=
  if visible_height = 0 then s
  else if s.selected < s.scroll_offset then
    { s with scroll_offset := s.selected }
  else if s.scroll_offset + visible_height ≤ s.selected then
    { s with scroll_offset := s.selected - visible_height + 1 }
  else s

/-- `ScreenListState::set_tracks`. -/
def set_tracks (s : ScreenListState) (tracks : List Track) : ScreenListState :=
  { s with
    items := tracks.map trackDisplay
    tracks := tracks
    selected := 0
    loaded := true
    loading := false }

/-- `ScreenListState::append_tracks`. -/
def append_tracks (s : ScreenListState) (tracks : List Track) : ScreenListState :=
  { s with
    items := s.items ++ tracks.map trackDisplay
    tracks := s.tracks ++ tracks
    loading_more := false }

/-- `ScreenListState::should_load_more` (the visible-height argument is
unused in the source). -/
def should_load_more (s : ScreenListState) (_visible_height : Nat) : Bool :=
  if s.loading_more || !s.has_more then false
  else decide (s.items.length ≤ s.selected + 5)

end ScreenListState

/-- `ToastKind`. -/
inductive ToastKind where
  | success
  | error
deriving DecidableEq

/-- `Toast`; `std::time::Instant` is modelled as an abstract timestamp in
seconds. -/
structure Toast where
  message : String
  kind : ToastKind
  created_at : Nat
deriving DecidableEq

namespace Toast

/-- `Toast::error`, created at time `now`. -/
def error (message : String) (now : Nat) : Toast :=
  { message := message, kind := .error, created_at := now }

/-- `Toast::is_expired` at time `now`: elapsed time exceeds 3 seconds. -/
def is_expired (t : Toast) (now : Nat) : Bool :=
  decide (3 < now - t.created_at)

end Toast

/-- The slice of `App` state touched by `spawn_search_more` and the search
pagination triggers. -/
structure SearchCtx where
  search_list : ScreenListState
  status : String
deriving DecidableEq

/-- `App::spawn_search_more`: returns the new state and, when a job is
spawned, the continuation token handed to it. -/
def spawn_search_more (ctx : SearchCtx) : SearchCtx × Option String :=
  if ctx.search_list.loading_more then
    (ctx, none)
  else
    match ctx.search_list.continuation with
    | none => (ctx, none)
    | some c =>
      ({ search_list := { ctx.search_list with loading_more := true }
         status := "Loading more results..." },
       some c)

/-- The `Action::ListDown` arm of `App::handle_action` on the Search screen:
reduce (`select_next` + `update_scroll 20`), then spawn a continuation job
if `should_load_more(20)` holds. -/
def onListDownSearch (ctx : SearchCtx) : SearchCtx × Option String :=
  if (ctx.search_list.select_next.update_scroll 20).should_load_more 20 then
    spawn_search_more
      { ctx with search_list := ctx.search_list.select_next.update_scroll 20 }
  else
    ({ ctx with search_list := ctx.search_list.select_next.update_scroll 20 }, none)

/-- The `NetworkEvent::SearchResults` arm of `App::handle_network`,
restricted to the search-list slice. -/
def onSearchResults (ctx : SearchCtx) (tracks : List Track)
    (continuation : Option String) : SearchCtx :=
  { search_list :=
      { ctx.search_list.set_tracks tracks with
        continuation := continuation
        has_more := continuation.isSome }
    status := "Results: " ++ toString (ctx.search_list.set_tracks tracks).items.length }

/-- The slice of `AppState` touched by the `NetworkEvent::Error` arm of
`App::handle_network`. -/
structure ErrorCtx where
  history_list : ScreenListState
  search_list : ScreenListState
  library_list : ScreenListState
  toast : Option Toast
  status : String
deriving DecidableEq

/-- The `NetworkEvent::Error(e)` arm of `App::handle_network`: reset the
loading flags, set an error toast and a status line. The arm spawns no job
(the returned list of spawned jobs is empty). -/
def handleNetworkError (s : ErrorCtx) (e : String) (now : Nat) :
    ErrorCtx × List String :=
  ({ history_list := { s.history_list with loading := false }
     search_list := { s.search_list with loading := false, loading_more := false }
     library_list := { s.library_list with loading := false }
     toast := some (Toast.error e now)
     status := "Error: " ++ e ++ " (press r to retry)" },
   [])

/-! ### Concrete scenario data -/

/-- Sample track A. -/
def trackA : Track := ⟨"vidA", "Track A", ["Artist"], none, some 180⟩

/-- Sample track B. -/
def trackB : Track := ⟨"vidB", "Track B", ["Artist"], none, some 200⟩

/-- Sample track C. -/
def trackC : Track := ⟨"vidC", "Track C", ["Artist"], none, some 220⟩

/-- Queue `[A, B, C]` with current = 0 and shuffle off (C7 scenario). -/
def qABC : Queue :=
  { tracks := [trackA, trackB, trackC], current_index := some 0,
    shuffle_enabled := false, shuffle_order := [] }

/-- Queue `[A, B, C]` with current = 1 (B) and shuffle off (C8 scenario). -/
def qABC1 : Queue :=
  { tracks := [trackA, trackB, trackC], current_index := some 1,
    shuffle_enabled := false, shuffle_order := [] }

/-- A concrete operation sequence for the C1 witness. -/
def opsC1 : List (ShuffleFn × QueueOp) :=
  [(id, .replace [trackA, trackB, trackC]), (id, .toggle_shuffle),
   (id, .advance), (id, .remove 0)]

/-- A concrete operation sequence for the C2 witness. -/
def opsC2 : List (ShuffleFn × QueueOp) :=
  [(id, .replace [trackA, trackB, trackC]), (id, .toggle_shuffle)]

/-- A successful command reply, `{"request_id":7,"error":"success"}`. -/
def replySuccess : Json :=
  .obj [("request_id", .num 7), ("error", .str "success")]

/-- A failed command reply, `{"request_id":8,"error":"disconnected"}`. -/
def replyFail : Json :=
  .obj [("request_id", .num 8), ("error", .str "disconnected")]

/-- A concrete command sequence for the C4 witness. -/
def cmdsC4 : List Json :=
  [loadfileCmd "https://example.com/a", togglePauseCmd, seekRelativeCmd 10]

/-- A concrete stream cache holding an entry for track `vidA` that expires
at time 100. -/
def cacheC5 : StreamCache := [("vidA", "https://cached.example/a", 100)]

/-- The search context right after `SearchResults` for query "x" arrived
with three tracks and a continuation token (C6 scenario). -/
def ctxC6 : SearchCtx :=
  onSearchResults { search_list := ScreenListState.new, status := "" }
    [trackA, trackB, trackC] (some "tok")

/-- A search context whose list carries a continuation token and no pending
load-more job (C6 witness). -/
def ctxTok : SearchCtx :=
  { search_list :=
      { ScreenListState.new with continuation := some "tok", has_more := true }
    status := "" }

/-- An error-handling context whose history list has a stale
`loading_more = true` flag (C9 counterexample input). -/
def errCtx9 : ErrorCtx :=
  { history_list := { ScreenListState.new with loading_more := true }
    search_list := ScreenListState.new
    library_list := ScreenListState.new
    toast := none
    status := "" }

/-! ### List helper lemmas for the swap performed by `rebuild_shuffle_order` -/

lemma set_perm {α : Type} : ∀ (l : List α) (i : Nat), i < l.length → ∀ a : α,
    List.Perm (l.set i a) (a :: l.eraseIdx i)
  | _ :: _, 0, _, a => by
      simp only [List.set_cons_zero, List.eraseIdx_cons_zero]
      exact List.Perm.refl _
  | x :: t, i + 1, h, a => by
      have ih := set_perm t i (Nat.lt_of_succ_lt_succ h) a
      simpa only [List.set_cons_succ, List.eraseIdx_cons_succ] using
        (ih.cons x).trans (List.Perm.swap a x _)

lemma perm_cons_eraseIdx {α : Type} : ∀ (l : List α) (i : Nat) (a : α),
    l[i]? = some a → List.Perm l (a :: l.eraseIdx i)
  | x :: t, 0, a, h => by
      obtain rfl : x = a := by simpa using h
      simp only [List.eraseIdx_cons_zero]
      exact List.Perm.refl _
  | x :: t, i + 1, a, h => by
      have ih := perm_cons_eraseIdx t i a (by simpa using h)
      simpa only [List.eraseIdx_cons_succ] using (ih.cons x).trans (List.Perm.swap a x _)

lemma swap_set_perm {α : Type} : ∀ (l : List α) (i j : Nat) (a b : α), i < j →
    l[i]? = some a → l[j]? = some b → List.Perm ((l.set i b).set j a) l
  | [], _, _, _, _, _, ha, _ => by simp at ha
  | _ :: _, _, 0, _, _, hij, _, _ => absurd hij (Nat.not_lt_zero _)
  | x :: t, 0, j + 1, a, b, _, ha, hb => by
      have hax : x = a := by simpa using ha
      have hb' : t[j]? = some b := by simpa using hb
      have hj : j < t.length := (List.getElem?_eq_some_iff.mp hb').1
      simp only [List.set_cons_zero, List.set_cons_succ]
      rw [hax]
      exact ((set_perm t j hj a).cons b).trans
        ((List.Perm.swap a b _).trans ((perm_cons_eraseIdx t j b hb').cons a).symm)
  | x :: t, i + 1, j + 1, a, b, hij, ha, hb => by
      have ih := swap_set_perm t i j a b (Nat.lt_of_succ_lt_succ hij)
        (by simpa using ha) (by simpa using hb)
      simpa only [List.set_cons_succ] using ih.cons x

/-- `listSwap` always permutes (out of range it is the identity). -/
lemma listSwap_perm (l : List Nat) (i j : Nat) : List.Perm (listSwap l i j) l := by
  unfold listSwap
  cases hi : l[i]? with
  | none => exact List.Perm.refl _
  | some a =>
    cases hj : l[j]? with
    | none => exact List.Perm.refl _
    | some b =>
      rcases Nat.lt_trichotomy i j with h | h | h
      · exact swap_set_perm l i j a b h hi hj
      · subst h
        obtain rfl : a = b := by rw [hi] at hj; exact Option.some.inj hj
        show List.Perm ((l.set i a).set i a) l
        rw [List.set_set]
        have hlt : i < l.length := (List.getElem?_eq_some_iff.mp hi).1
        exact (set_perm l i hlt a).trans (perm_cons_eraseIdx l i a hi).symm
      · show List.Perm ((l.set i b).set j a) l
        rw [List.set_comm _ _ _ (by omega)]
        exact swap_set_perm l j i b a h hj hi

/-- After `swap(0, pos)`, the element previously at `pos` is at the front. -/
lemma listSwap_zero_head (l : List Nat) (pos : Nat) (b : Nat)
    (hb : l[pos]? = some b) : (listSwap l 0 pos).head? = some b := by
  unfold listSwap
  cases l with
  | nil => simp at hb
  | cons x t =>
    cases pos with
    | zero =>
      obtain rfl : x = b := by simpa using hb
      simp
    | succ k =>
      have hb' : t[k]? = some b := by simpa using hb
      simp [hb']

/-! ### The queue invariant (§3) and its preservation by every operation -/

/-- The §3 queue invariant: the current index, when present, is below the
length; with shuffle on and a non-empty list, the shuffle order permutes
`[0, length)`. -/
def Inv (q : Queue) : Prop :=
  (∀ c, q.current_index = some c → c < q.tracks.length) ∧
  (q.shuffle_enabled = true → q.tracks ≠ [] →
    List.Perm q.shuffle_order (List.range q.tracks.length))

lemma placeCurrentFirst_perm (current : Nat) (σ : List Nat) :
    List.Perm (Queue.placeCurrentFirst current σ) σ := by
  unfold Queue.placeCurrentFirst
  cases σ.findIdx? (fun x => x == current) with
  | none => exact List.Perm.refl σ
  | some pos => exact listSwap_perm σ 0 pos

lemma placeCurrentFirst_head (current : Nat) (σ : List Nat)
    (hmem : current ∈ σ) :
    (Queue.placeCurrentFirst current σ).head? = some current := by
  unfold Queue.placeCurrentFirst
  have hex : ∃ x, x ∈ σ ∧ (x == current) = true := ⟨current, hmem, by simp⟩
  rw [List.findIdx?_eq_some_of_exists hex]
  apply listSwap_zero_head
  have hwlt := List.findIdx_lt_length_of_exists hex
  have hbeq := @List.findIdx_getElem _ (fun x => x == current) σ hwlt
  rw [List.getElem?_eq_getElem hwlt]
  simpa using hbeq

lemma rebuiltOrder_perm (f : ShuffleFn) (hf : permValid f) (q : Queue)
    (hen : q.shuffle_enabled = true) (hne : q.tracks ≠ []) :
    List.Perm (Queue.rebuiltOrder f q) (List.range q.tracks.length) := by
  unfold Queue.rebuiltOrder
  rw [if_neg (by simp [hen, hne])]
  have hσ := hf (List.range q.tracks.length)
  cases q.current_index with
  | none => exact hσ
  | some current => exact (placeCurrentFirst_perm current _).trans hσ

lemma rebuiltOrder_head (f : ShuffleFn) (hf : permValid f) (q : Queue) (c : Nat)
    (hen : q.shuffle_enabled = true) (hne : q.tracks ≠ [])
    (hc : q.current_index = some c) (hlt : c < q.tracks.length) :
    (Queue.rebuiltOrder f q).head? = some c := by
  unfold Queue.rebuiltOrder
  rw [if_neg (by simp [hen, hne]), hc]
  have hσ := hf (List.range q.tracks.length)
  have hmem : c ∈ f (List.range q.tracks.length) :=
    hσ.mem_iff.mpr (List.mem_range.mpr hlt)
  exact placeCurrentFirst_head c _ hmem

lemma inv_rebuild (f : ShuffleFn) (hf : permValid f) (q : Queue)
    (h1 : ∀ c, q.current_index = some c → c < q.tracks.length) :
    Inv (Queue.rebuild_shuffle_order f q) := by
  refine ⟨fun c hc => h1 c hc, fun hen hne => ?_⟩
  exact rebuiltOrder_perm f hf q hen hne

lemma next_index_lt (q : Queue) (hq : Inv q) (c n : Nat)
    (h : q.next_index c = some n) : n < q.tracks.length := by
  unfold Queue.next_index at h
  by_cases hnil : q.tracks = []
  · rw [if_pos hnil] at h; exact Option.noConfusion h
  · rw [if_neg hnil] at h
    by_cases hsh : q.shuffle_enabled ∧ q.shuffle_order ≠ []
    · rw [if_pos hsh] at h
      cases hfi : q.shuffle_order.findIdx? (fun x => x == c) with
      | none => rw [hfi] at h; exact Option.noConfusion h
      | some pos =>
        simp only [hfi] at h
        by_cases hpos : pos + 1 < q.shuffle_order.length
        · rw [if_pos hpos] at h
          have hmem : n ∈ q.shuffle_order := List.getElem?_mem h
          have hperm := hq.2 hsh.1 hnil
          exact List.mem_range.mp (hperm.mem_iff.mp hmem)
        · rw [if_neg hpos] at h; exact Option.noConfusion h
    · rw [if_neg hsh] at h
      by_cases hlt : c + 1 < q.tracks.length
      · rw [if_pos hlt] at h
        obtain rfl : c + 1 = n := Option.some.inj h
        exact hlt
      · rw [if_neg hlt] at h; exact Option.noConfusion h

lemma prev_index_lt (q : Queue) (hq : Inv q) (c n : Nat)
    (hcl : c < q.tracks.length) (h : q.prev_index c = some n) :
    n < q.tracks.length := by
  unfold Queue.prev_index at h
  by_cases hnil : q.tracks = []
  · rw [if_pos hnil] at h; exact Option.noConfusion h
  · rw [if_neg hnil] at h
    by_cases hsh : q.shuffle_enabled ∧ q.shuffle_order ≠ []
    · rw [if_pos hsh] at h
      cases hfi : q.shuffle_order.findIdx? (fun x => x == c) with
      | none => rw [hfi] at h; exact Option.noConfusion h
      | some pos =>
        simp only [hfi] at h
        by_cases hpos : 0 < pos
        · rw [if_pos hpos] at h
          have hmem : n ∈ q.shuffle_order := List.getElem?_mem h
          have hperm := hq.2 hsh.1 hnil
          exact List.mem_range.mp (hperm.mem_iff.mp hmem)
        · rw [if_neg hpos] at h; exact Option.noConfusion h
    · rw [if_neg hsh] at h
      by_cases hlt : 0 < c
      · rw [if_pos hlt] at h
        obtain rfl : c - 1 = n := Option.some.inj h
        omega
      · rw [if_neg hlt] at h; exact Option.noConfusion h

lemma movedTracks_length (tracks : List Track) (a b : Nat)
    (ha : a < tracks.length) (hb : b < tracks.length) :
    (Queue.movedTracks tracks a b).length = tracks.length := by
  have h1 : (tracks.eraseIdx a).length = tracks.length - 1 :=
    List.length_eraseIdx_of_lt ha
  simp only [Queue.movedTracks, List.getElem?_eq_getElem ha]
  rw [List.length_insertIdx b (tracks.eraseIdx a) (by omega)]
  omega

lemma applyOp_inv (f : ShuffleFn) (op : QueueOp) (q : Queue)
    (hf : permValid f) (hq : Inv q) : Inv (applyOp f op q) := by
  cases op with
  | add t =>
    simp only [applyOp]
    apply inv_rebuild f hf
    intro c hc
    have := hq.1 c hc
    show c < (q.tracks ++ [t]).length
    rw [List.length_append]
    omega
  | add_many ts =>
    simp only [applyOp]
    apply inv_rebuild f hf
    intro c hc
    have := hq.1 c hc
    show c < (q.tracks ++ ts).length
    rw [List.length_append]
    omega
  | replace ts =>
    simp only [applyOp]
    apply inv_rebuild f hf
    intro c hc
    show c < ts.length
    by_cases hts : ts = []
    · rw [show ((if ts = [] then none else some 0) : Option Nat) = none from if_pos hts] at hc
      exact Option.noConfusion hc
    · rw [show ((if ts = [] then none else some 0) : Option Nat) = some 0 from if_neg hts] at hc
      obtain rfl : (0 : Nat) = c := Option.some.inj hc
      exact List.length_pos.mpr hts
  | remove i =>
    simp only [applyOp]
    unfold Queue.remove
    by_cases hle : q.tracks.length ≤ i
    · rw [if_pos hle]; exact hq
    · rw [if_neg hle]
      apply inv_rebuild f hf
      intro c hc
      show c < (q.tracks.eraseIdx i).length
      have hlen : (q.tracks.eraseIdx i).length = q.tracks.length - 1 :=
        List.length_eraseIdx_of_lt (by omega)
      rw [hlen]
      unfold Queue.removeAdjust at hc
      cases hcur : q.current_index with
      | none => rw [hcur] at hc; exact Option.noConfusion hc
      | some cur =>
        simp only [hcur] at hc
        have hcl := hq.1 cur hcur
        by_cases h1 : i < cur
        · rw [if_pos h1] at hc
          obtain rfl : cur - 1 = c := Option.some.inj hc
          omega
        · rw [if_neg h1] at hc
          by_cases h2 : i = cur
          · rw [if_pos h2] at hc
            by_cases h3 : q.tracks.eraseIdx i = []
            · rw [if_pos h3] at hc; exact Option.noConfusion hc
            · rw [if_neg h3] at hc
              have hpos : 0 < (q.tracks.eraseIdx i).length := List.length_pos.mpr h3
              by_cases h4 : (q.tracks.eraseIdx i).length ≤ cur
              · rw [if_pos h4] at hc
                obtain rfl : (q.tracks.eraseIdx i).length - 1 = c := Option.some.inj hc
                omega
              · rw [if_neg h4] at hc
                obtain rfl : cur = c := Option.some.inj hc
                omega
          · rw [if_neg h2] at hc
            obtain rfl : cur = c := Option.some.inj hc
            omega
  | clear =>
    simp only [applyOp]
    exact ⟨fun c hc => Option.noConfusion hc, fun _ hne => absurd rfl hne⟩
  | move_track a b =>
    simp only [applyOp]
    unfold Queue.move_track
    by_cases hg : q.tracks.length ≤ a ∨ q.tracks.length ≤ b ∨ a = b
    · rw [if_pos hg]; exact hq
    · rw [if_neg hg]
      push_neg at hg
      obtain ⟨ha, hb, hab⟩ := hg
      apply inv_rebuild f hf
      intro c hc
      show c < (Queue.movedTracks q.tracks a b).length
      rw [movedTracks_length q.tracks a b ha hb]
      unfold Queue.moveAdjust at hc
      cases hcur : q.current_index with
      | none => rw [hcur] at hc; exact Option.noConfusion hc
      | some cur =>
        simp only [hcur] at hc
        have hcl := hq.1 cur hcur
        by_cases h1 : a = cur
        · rw [if_pos h1] at hc
          obtain rfl : b = c := Option.some.inj hc
          omega
        · rw [if_neg h1] at hc
          by_cases h2 : a < cur ∧ cur ≤ b
          · rw [if_pos h2] at hc
            obtain rfl : cur - 1 = c := Option.some.inj hc
            omega
          · rw [if_neg h2] at hc
            by_cases h3 : cur < a ∧ b ≤ cur
            · rw [if_pos h3] at hc
              obtain rfl : cur + 1 = c := Option.some.inj hc
              omega
            · rw [if_neg h3] at hc
              obtain rfl : cur = c := Option.some.inj hc
              omega
  | toggle_shuffle =>
    simp only [applyOp]
    unfold Queue.toggle_shuffle
    cases he : q.shuffle_enabled with
    | true =>
      rw [if_neg (by simp [he])]
      exact ⟨fun c hc => hq.1 c hc, fun hen _ => by simp [he] at hen⟩
    | false =>
      rw [if_pos (by simp [he])]
      exact inv_rebuild f hf _ (fun c hc => hq.1 c hc)
  | set_current i =>
    simp only [applyOp]
    unfold Queue.set_current
    by_cases h : i < q.tracks.length
    · rw [if_pos h]
      refine ⟨fun c hc => ?_, fun hen hne => hq.2 hen hne⟩
      obtain rfl : i = c := Option.some.inj hc
      exact h
    · rw [if_neg h]; exact hq
  | advance =>
    simp only [applyOp]
    unfold Queue.advance
    cases hcur : q.current_index with
    | none => exact hq
    | some cur =>
      cases hni : q.next_index cur with
      | none => simp only [hni]; exact hq
      | some n =>
        simp only [hni]
        refine ⟨fun c hc => ?_, fun hen hne => hq.2 hen hne⟩
        obtain rfl : n = c := Option.some.inj hc
        exact next_index_lt q hq cur n hni
  | go_back =>
    simp only [applyOp]
    unfold Queue.go_back
    cases hcur : q.current_index with
    | none => exact hq
    | some cur =>
      cases hpi : q.prev_index cur with
      | none => simp only [hpi]; exact hq
      | some n =>
        simp only [hpi]
        refine ⟨fun c hc => ?_, fun hen hne => hq.2 hen hne⟩
        obtain rfl : n = c := Option.some.inj hc
        exact prev_index_lt q hq cur n (hq.1 cur hcur) hpi

lemma inv_new : Inv Queue.new :=
  ⟨fun _ hc => Option.noConfusion hc, fun _ hne => absurd rfl hne⟩

lemma runOps_inv (ops : List (ShuffleFn × QueueOp)) (h : permsValid ops)
    (q : Queue) (hq : Inv q) : Inv (runOps ops q) := by
  induction ops generalizing q with
  | nil => exact hq
  | cons p rest ih =>
    exact ih (fun x hx => h x (List.mem_cons_of_mem p hx)) _
      (applyOp_inv p.1 p.2 q (h p (List.mem_cons_self p rest)) hq)

lemma permsValid_opsC1 : permsValid opsC1 := by
  intro p hp l
  simp only [opsC1, List.mem_cons, List.not_mem_nil, or_false] at hp
  rcases hp with h | h | h | h <;> (subst h; exact List.Perm.refl l)

lemma permsValid_opsC2 : permsValid opsC2 := by
  intro p hp l
  simp only [opsC2, List.mem_cons, List.not_mem_nil, or_false] at hp
  rcases hp with h | h <;> (subst h; exact List.Perm.refl l)

lemma permValid_id : permValid (id : ShuffleFn) := fun l => List.Perm.refl l

/-! ### Claim theorems -/

/-- C1: for every sequence of queue operations (each consuming randomness
that genuinely permutes, as `rand`'s shuffle does) starting from the empty
queue, the current index afterwards is `None` or strictly below the queue
length. -/
theorem claim_C1_current_index_bound (ops : List (ShuffleFn × QueueOp))
    (h : permsValid ops) : currentIndexOk (runOps ops Queue.new) = true := by
  have hinv := runOps_inv ops h Queue.new inv_new
  unfold currentIndexOk
  cases hcur : (runOps ops Queue.new).current_index with
  | none => rfl
  | some c => simpa using hinv.1 c hcur

/-- Witness for C1 at a concrete operation sequence. -/
theorem claim_C1_witness :
    permsValid opsC1 ∧ currentIndexOk (runOps opsC1 Queue.new) = true :=
  ⟨permsValid_opsC1, claim_C1_current_index_bound opsC1 permsValid_opsC1⟩

/-- C2: for every reachable queue, with shuffle enabled and a non-empty
track list the shuffle order is a permutation of `[0, length)`; and a
shuffle-order rebuild performed while a current index is set puts that
index first in the resulting permutation. -/
theorem claim_C2_shuffle_order_perm (ops : List (ShuffleFn × QueueOp))
    (h : permsValid ops) (f : ShuffleFn) (hf : permValid f) (c : Nat) :
    shuffleOrderOk (runOps ops Queue.new) = true ∧
    ((runOps ops Queue.new).shuffle_enabled = true →
      (runOps ops Queue.new).tracks ≠ [] →
      (runOps ops Queue.new).current_index = some c →
      (Queue.rebuild_shuffle_order f (runOps ops Queue.new)).shuffle_order.head? =
        some c) := by
  have hinv := runOps_inv ops h Queue.new inv_new
  constructor
  · unfold shuffleOrderOk
    by_cases hcond : (runOps ops Queue.new).shuffle_enabled ∧
        (runOps ops Queue.new).tracks ≠ []
    · rw [if_pos hcond]
      simpa using hinv.2 hcond.1 hcond.2
    · rw [if_neg hcond]
  · intro hen hne hc
    exact rebuiltOrder_head f hf _ c hen hne hc (hinv.1 c hc)

/-- Witness for C2 at a concrete operation sequence (shuffle toggled on with
current index 0). -/
theorem claim_C2_witness :
    permsValid opsC2 ∧ permValid (id : ShuffleFn) ∧
    shuffleOrderOk (runOps opsC2 Queue.new) = true ∧
    (Queue.rebuild_shuffle_order id (runOps opsC2 Queue.new)).shuffle_order.head? =
      some 0 :=
  ⟨permsValid_opsC2, permValid_id,
   (claim_C2_shuffle_order_perm opsC2 permsValid_opsC2 id permValid_id 0).1,
   (claim_C2_shuffle_order_perm opsC2 permsValid_opsC2 id permValid_id 0).2
     (by decide) (by decide) (by decide)⟩

/-- C10: `remove(i)` with `i ≥ length` returns `None` and leaves the whole
queue state unchanged. -/
theorem claim_C10_remove_out_of_range (f : ShuffleFn) (q : Queue) (i : Nat)
    (h : q.tracks.length ≤ i) : Queue.remove f i q = (none, q) := by
  unfold Queue.remove
  rw [if_pos h]

/-- Witness for C10 at a concrete out-of-range removal. -/
theorem claim_C10_witness :
    qABC1.tracks.length ≤ 5 ∧ Queue.remove (id : ShuffleFn) 5 qABC1 = (none, qABC1) :=
  ⟨by decide, claim_C10_remove_out_of_range id qABC1 5 (by decide)⟩

lemma remove_current_eq (f : ShuffleFn) (q : Queue) (i : Nat)
    (hi : i < q.tracks.length) :
    (Queue.remove f i q).2.current_index =
      Queue.removeAdjust q.current_index i (q.tracks.eraseIdx i) := by
  unfold Queue.remove
  rw [if_neg (by omega)]
  rfl

/-- C8: `remove(i)` with a current index set decrements the current index
when `i` is below it; when `i` equals it, the current index is cleared if
the queue becomes empty and clamped to the new last index if it would point
past the new end; and `remove(0)` on `[A,B,C]` with current = 1 yields
`[B,C]` with current = 0, still pointing at B. -/
theorem claim_C8_remove_adjusts_current (f : ShuffleFn) (q : Queue) (c i : Nat)
    (hc : q.current_index = some c) (hi : i < q.tracks.length) :
    (i < c → (Queue.remove f i q).2.current_index = some (c - 1)) ∧
    (i = c → q.tracks.eraseIdx i = [] →
      (Queue.remove f i q).2.current_index = none) ∧
    (i = c → q.tracks.eraseIdx i ≠ [] → (q.tracks.eraseIdx i).length ≤ c →
      (Queue.remove f i q).2.current_index =
        some ((q.tracks.eraseIdx i).length - 1)) ∧
    ((Queue.remove (id : ShuffleFn) 0 qABC1).2.tracks = [trackB, trackC] ∧
     (Queue.remove (id : ShuffleFn) 0 qABC1).2.current_index = some 0 ∧
     Queue.current_track (Queue.remove (id : ShuffleFn) 0 qABC1).2 = some trackB) := by
  refine ⟨?_, ?_, ?_, by decide⟩
  · intro hlt
    rw [remove_current_eq f q i hi, hc]
    simp only [Queue.removeAdjust]
    rw [if_pos hlt]
  · intro heq hnil
    rw [remove_current_eq f q i hi, hc]
    simp only [Queue.removeAdjust]
    rw [if_neg (show ¬ i < c by omega), if_pos heq, if_pos hnil]
  · intro heq hne hle
    rw [remove_current_eq f q i hi, hc]
    simp only [Queue.removeAdjust]
    rw [if_neg (show ¬ i < c by omega), if_pos heq, if_neg hne, if_pos hle]

/-- Witness for C8 at the concrete scenario input. -/
theorem claim_C8_witness :
    qABC1.current_index = some 1 ∧ 0 < qABC1.tracks.length ∧
    (Queue.remove (id : ShuffleFn) 0 qABC1).2.current_index = some 0 :=
  ⟨rfl, by decide,
   (claim_C8_remove_adjusts_current (id : ShuffleFn) qABC1 1 0 rfl (by decide)).1
     (by decide)⟩

lemma next_index_none_of_at_end (q : Queue) (i : Nat)
    (hcur : q.current_index = some i) (h : q.is_at_end = true) :
    q.next_index i = none := by
  unfold Queue.is_at_end at h
  simp only [hcur] at h
  unfold Queue.next_index
  by_cases hnil : q.tracks = []
  · rw [if_pos hnil]
  · rw [if_neg hnil]
    by_cases hsh : q.shuffle_enabled ∧ q.shuffle_order ≠ []
    · rw [if_pos hsh]
      rw [if_pos hsh] at h
      have h' : q.shuffle_order.findIdx? (fun x => x == i) =
          some (q.shuffle_order.length - 1) := by simpa using h
      simp only [h']
      have hpos : 0 < q.shuffle_order.length := List.length_pos.mpr hsh.2
      rw [if_neg (by omega)]
    · rw [if_neg hsh]
      rw [if_neg hsh] at h
      have h' : q.tracks.length - 1 ≤ i := by simpa using h
      have hpos : 0 < q.tracks.length := List.length_pos.mpr hnil
      rw [if_neg (by omega)]

lemma prev_index_none_of_at_start (q : Queue) (i : Nat)
    (hcur : q.current_index = some i) (h : q.is_at_start = true) :
    q.prev_index i = none := by
  unfold Queue.is_at_start at h
  simp only [hcur] at h
  unfold Queue.prev_index
  by_cases hnil : q.tracks = []
  · rw [if_pos hnil]
  · rw [if_neg hnil]
    by_cases hsh : q.shuffle_enabled ∧ q.shuffle_order ≠ []
    · rw [if_pos hsh]
      rw [if_pos hsh] at h
      have h' : q.shuffle_order.findIdx? (fun x => x == i) = some 0 := by
        simpa using h
      simp only [h']
      rw [if_neg (by omega)]
    · rw [if_neg hsh]
      rw [if_neg hsh] at h
      have h' : i = 0 := by simpa using h
      rw [if_neg (by omega)]

/-- C7: at the end of the play order (linear when shuffle is off, shuffled
when it is on) `advance` returns no next track and leaves the queue — its
current index included — unchanged; symmetrically for `go_back` at the
start. On `[A,B,C]` with current = 0 and shuffle off, two `advance` calls
make C current and a third returns none with current still C. -/
theorem claim_C7_advance_boundaries (q : Queue) :
    (q.is_at_end = true → Queue.advance q = (none, q)) ∧
    (q.is_at_start = true → Queue.go_back q = (none, q)) ∧
    ((Queue.advance qABC).2.current_index = some 1 ∧
     (Queue.advance (Queue.advance qABC).2).2.current_index = some 2 ∧
     Queue.current_track (Queue.advance (Queue.advance qABC).2).2 = some trackC ∧
     Queue.advance (Queue.advance (Queue.advance qABC).2).2 =
       (none, (Queue.advance (Queue.advance qABC).2).2)) := by
  refine ⟨?_, ?_, by decide⟩
  · intro h
    unfold Queue.advance
    cases hcur : q.current_index with
    | none => rfl
    | some i => simp only [next_index_none_of_at_end q i hcur h]
  · intro h
    unfold Queue.go_back
    cases hcur : q.current_index with
    | none => rfl
    | some i => simp only [prev_index_none_of_at_start q i hcur h]

/-- Witness for C7 at a concrete queue sitting at the end of the linear
order. -/
theorem claim_C7_witness :
    (Queue.advance (Queue.advance qABC).2).2.is_at_end = true ∧
    Queue.advance (Queue.advance (Queue.advance qABC).2).2 =
      (none, (Queue.advance (Queue.advance qABC).2).2) :=
  ⟨by decide,
   (claim_C7_advance_boundaries (Queue.advance (Queue.advance qABC).2).2).1
     (by decide)⟩

/-- C3: a decoded command reply (an object carrying `request_id` and a
string `error` field, and no `event` tag) emits no Error event when the
error string is `"success"`, and exactly one Error event otherwise. -/
theorem claim_C3_reply_error_events (v : Json) (rid : Json) (s : String)
    (h1 : v.get "request_id" = some rid)
    (h2 : v.get "error" = some (.str s))
    (h3 : v.get "event" = none) :
    (s = "success" → (lineEvents v).countP isErrorEvent = 0) ∧
    (s ≠ "success" → (lineEvents v).countP isErrorEvent = 1) := by
  have hmap : map_mpv_event v = none := by
    unfold map_mpv_event
    rw [h3]
    rfl
  constructor
  · intro hs
    subst hs
    simp [lineEvents, h1, h2, hmap, Json.as_str]
  · intro hs
    simp [lineEvents, h1, h2, hmap, Json.as_str, hs, isErrorEvent]

/-- Witness for C3 at concrete success and failure replies. -/
theorem claim_C3_witness :
    (lineEvents replySuccess).countP isErrorEvent = 0 ∧
    (lineEvents replyFail).countP isErrorEvent = 1 :=
  ⟨(claim_C3_reply_error_events replySuccess (.num 7) "success" rfl rfl rfl).1 rfl,
   (claim_C3_reply_error_events replyFail (.num 8) "disconnected" rfl rfl rfl).2
     (by decide)⟩

lemma lookupField_append_self (fields : List (String × Json)) (key : String)
    (x : Json) (h : lookupField fields key = none) :
    lookupField (fields ++ [(key, x)]) key = some x := by
  induction fields with
  | nil => simp [lookupField]
  | cons p rest ih =>
    obtain ⟨k, w⟩ := p
    simp only [List.cons_append, lookupField] at h ⊢
    by_cases hk : k = key
    · rw [if_pos hk] at h
      exact Option.noConfusion h
    · rw [if_neg hk] at h ⊢
      exact ih h

lemma runCommands_ids : ∀ (vs : List Json) (c : Nat),
    (∀ v ∈ vs, v.get "request_id" = none ∧ v.isObj = true) →
    c + vs.length ≤ u64Mod →
    (runCommands ⟨c⟩ vs).1.map reqIdOf =
      (List.range' c vs.length).map (fun n => some (Int.ofNat n))
  | [], _, _, _ => rfl
  | v :: rest, c, h1, h2 => by
    obtain ⟨hv, hobj⟩ := h1 v (List.mem_cons_self _ _)
    cases v with
    | obj fields =>
      have hv' : lookupField fields "request_id" = none := hv
      have hstep : mpvCommand ⟨c⟩ (.obj fields) =
          (Json.obj (fields ++ [("request_id", .num (Int.ofNat c))]),
           ⟨(c + 1) % u64Mod⟩) := by
        unfold mpvCommand
        rw [if_pos (by simp [Json.get, hv'])]
      have hhead :
          reqIdOf (Json.obj (fields ++ [("request_id", .num (Int.ofNat c))])) =
            some (Int.ofNat c) := by
        simp only [reqIdOf, Json.get]
        rw [lookupField_append_self fields "request_id" _ hv']
        rfl
      have htail : (runCommands ⟨(c + 1) % u64Mod⟩ rest).1.map reqIdOf =
          (List.range' (c + 1) rest.length).map (fun n => some (Int.ofNat n)) := by
        by_cases hr : rest.length = 0
        · obtain rfl : rest = [] := List.length_eq_zero.mp hr
          rfl
        · have hm : (c + 1) % u64Mod = c + 1 :=
            Nat.mod_eq_of_lt (by simp only [List.length_cons] at h2; omega)
          rw [hm]
          exact runCommands_ids rest (c + 1)
            (fun w hw => h1 w (List.mem_cons_of_mem _ hw))
            (by simp only [List.length_cons] at h2; omega)
      simp only [runCommands, hstep, List.length_cons]
      rw [List.map_cons, hhead, htail,
        show List.range' c (rest.length + 1) = c :: List.range' (c + 1) rest.length
          from rfl,
        List.map_cons]
    | null => simp [Json.isObj] at hobj
    | bool b => simp [Json.isObj] at hobj
    | num n => simp [Json.isObj] at hobj
    | str s => simp [Json.isObj] at hobj
    | arr items => simp [Json.isObj] at hobj

lemma filterMap_of_map_eq_map_some {α β : Type} (l : List α) (g : α → Option β)
    (r : List β) (h : l.map g = r.map some) : l.filterMap g = r := by
  induction l generalizing r with
  | nil =>
    cases r with
    | nil => rfl
    | cons b r => simp at h
  | cons a l ih =>
    cases r with
    | nil => simp at h
    | cons b r =>
      simp only [List.map_cons, List.cons.injEq] at h
      simp [List.filterMap_cons, h.1, ih r h.2]

lemma chain'_lt_range' : ∀ (n s : Nat),
    List.Chain' (fun a b : Nat => a < b) (List.range' s n)
  | 0, _ => List.chain'_nil
  | 1, s => by
    rw [show List.range' s 1 = [s] from rfl]
    exact List.chain'_singleton s
  | n + 2, s => by
    rw [show List.range' s (n + 2) = s :: List.range' (s + 1) (n + 1) from rfl]
    exact List.Chain'.cons (Nat.lt_succ_self s) (chain'_lt_range' (n + 1) (s + 1))

/-- C4: a session starting from request id 1, sending commands none of which
carries a caller-supplied `request_id` (as at every call site of
`MpvHandle::command`), tags every outgoing object with a numeric request id
and the sequence of those ids is strictly increasing. -/
theorem claim_C4_request_ids (vs : List Json)
    (h1 : ∀ v ∈ vs, v.get "request_id" = none ∧ v.isObj = true)
    (h2 : 1 + vs.length ≤ u64Mod) :
    (∀ vo ∈ (runCommands ⟨1⟩ vs).1, ∃ n : Nat, reqIdOf vo = some (Int.ofNat n)) ∧
    List.Chain' (fun a b => a < b) ((runCommands ⟨1⟩ vs).1.filterMap reqIdOf) := by
  have hids := runCommands_ids vs 1 h1 h2
  constructor
  · intro vo hvo
    have hmem : reqIdOf vo ∈ (runCommands ⟨1⟩ vs).1.map reqIdOf :=
      List.mem_map_of_mem _ hvo
    rw [hids] at hmem
    obtain ⟨n, _, hn⟩ := List.mem_map.mp hmem
    exact ⟨n, hn.symm⟩
  · have h' : (runCommands ⟨1⟩ vs).1.map reqIdOf =
        ((List.range' 1 vs.length).map (fun n => Int.ofNat n)).map some := by
      rw [List.map_map]
      exact hids
    rw [filterMap_of_map_eq_map_some _ _ _ h', List.chain'_map]
    exact (chain'_lt_range' vs.length 1).imp (fun a b hab => Int.ofNat_lt.mpr hab)

/-- Witness for C4 at a concrete three-command session. -/
theorem claim_C4_witness :
    (∀ v ∈ cmdsC4, v.get "request_id" = none ∧ v.isObj = true) ∧
    1 + cmdsC4.length ≤ u64Mod ∧
    (∀ vo ∈ (runCommands ⟨1⟩ cmdsC4).1, ∃ n : Nat, reqIdOf vo = some (Int.ofNat n)) ∧
    List.Chain' (fun a b => a < b) ((runCommands ⟨1⟩ cmdsC4).1.filterMap reqIdOf) :=
  have hA : ∀ v ∈ cmdsC4, v.get "request_id" = none ∧ v.isObj = true := by
    intro v hv
    simp only [cmdsC4, List.mem_cons, List.not_mem_nil, or_false] at hv
    rcases hv with h | h | h <;> subst h <;> exact ⟨rfl, rfl⟩
  have hB : 1 + cmdsC4.length ≤ u64Mod := by decide
  ⟨hA, hB, (claim_C4_request_ids cmdsC4 hA hB).1, (claim_C4_request_ids cmdsC4 hA hB).2⟩

lemma get_stream_url_after_write (cache : StreamCache) (vid url : String)
    (exp now : Int) (h : now < exp) :
    get_stream_url (cache_stream_url cache vid url exp now) vid now = some url := by
  induction cache with
  | nil =>
    simp [cache_stream_url, get_stream_url, h]
  | cons p rest ih =>
    obtain ⟨v, u, e⟩ := p
    simp only [cache_stream_url]
    by_cases hv : v = vid
    · rw [if_pos hv]
      simp only [get_stream_url]
      rw [if_pos hv, if_pos h]
    · rw [if_neg hv]
      simp only [get_stream_url]
      rw [if_neg hv]
      exact ih

/-- C5: the stream-resolution job performs no external resolution call when
the cache holds an unexpired URL for the track; on a cache miss it performs
exactly one call, and on success writes the URL back with expiry
`now + 3600` before emitting the `ResolvedStream` step, after which the URL
is retrievable from the cache. -/
theorem claim_C5_stream_resolution (cache : StreamCache) (now : Int)
    (vid : String) (resolver : Except String String) :
    (∀ url, get_stream_url cache vid now = some url →
      streamResolutionJob cache now vid resolver = [.emitResolved vid url] ∧
      resolveCallCount (streamResolutionJob cache now vid resolver) = 0) ∧
    (get_stream_url cache vid now = none →
      resolveCallCount (streamResolutionJob cache now vid resolver) = 1 ∧
      (∀ url, resolver = .ok url →
        streamResolutionJob cache now vid resolver =
          [.resolveCall vid, .cacheWrite vid url (now + 3600) now,
           .emitResolved vid url] ∧
        get_stream_url (cache_stream_url cache vid url (now + 3600) now) vid now =
          some url)) := by
  constructor
  · intro url hurl
    unfold streamResolutionJob resolveCallCount
    rw [hurl]
    exact ⟨rfl, rfl⟩
  · intro hnone
    unfold streamResolutionJob resolveCallCount
    rw [hnone]
    constructor
    · cases resolver with
      | ok u => rfl
      | error e => rfl
    · intro url hres
      subst hres
      exact ⟨rfl, get_stream_url_after_write cache vid url (now + 3600) now (by omega)⟩

/-- Witness for C5: a cache hit performs no resolution call; a miss (expired
entry) resolves once and caches the result with a one-hour expiry before
emitting. -/
theorem claim_C5_witness :
    get_stream_url cacheC5 "vidA" 50 = some "https://cached.example/a" ∧
    resolveCallCount
      (streamResolutionJob cacheC5 50 "vidA" (.ok "https://fresh.example/a")) = 0 ∧
    get_stream_url cacheC5 "vidA" 5000 = none ∧
    streamResolutionJob cacheC5 5000 "vidA" (.ok "https://fresh.example/a") =
      [.resolveCall "vidA",
       .cacheWrite "vidA" "https://fresh.example/a" 8600 5000,
       .emitResolved "vidA" "https://fresh.example/a"] :=
  ⟨rfl,
   ((claim_C5_stream_resolution cacheC5 50 "vidA" (.ok "https://fresh.example/a")).1
     "https://cached.example/a" rfl).2,
   rfl,
   (((claim_C5_stream_resolution cacheC5 5000 "vidA"
       (.ok "https://fresh.example/a")).2 rfl).2 "https://fresh.example/a" rfl).1⟩

lemma select_next_loading_more (s : ScreenListState) :
    s.select_next.loading_more = s.loading_more := by
  unfold ScreenListState.select_next
  split <;> rfl

lemma update_scroll_loading_more (s : ScreenListState) (vh : Nat) :
    (s.update_scroll vh).loading_more = s.loading_more := by
  unfold ScreenListState.update_scroll
  split
  · rfl
  · split
    · rfl
    · split
      · rfl
      · rfl

lemma should_load_more_false_of_loading_more (s : ScreenListState)
    (h : s.loading_more = true) : s.should_load_more 20 = false := by
  unfold ScreenListState.should_load_more
  rw [h]
  rfl

/-- C6: a load-more continuation job is spawned only when no such job is
pending and a continuation token is present (the token spawned with is that
token, and the pending flag is then set); while a job is pending, a
near-end scroll spawns nothing and leaves the flag set; and in the concrete
scenario — search results with token present — the first near-end scroll
spawns exactly the job for that token and a second scroll spawns none. -/
theorem claim_C6_load_more_dedup :
    (∀ ctx ctx' tok, spawn_search_more ctx = (ctx', some tok) →
      ctx.search_list.loading_more = false ∧
      ctx.search_list.continuation = some tok ∧
      ctx'.search_list.loading_more = true) ∧
    (∀ ctx : SearchCtx, ctx.search_list.loading_more = true →
      (onListDownSearch ctx).2 = none ∧
      (onListDownSearch ctx).1.search_list.loading_more = true) ∧
    ((onListDownSearch ctxC6).2 = some "tok" ∧
     (onListDownSearch (onListDownSearch ctxC6).1).2 = none) := by
  refine ⟨?_, ?_, by decide⟩
  · intro ctx ctx' tok h
    unfold spawn_search_more at h
    by_cases hlm : ctx.search_list.loading_more = true
    · rw [if_pos hlm] at h
      injection h with _ h2
      exact Option.noConfusion h2
    · rw [if_neg hlm] at h
      cases hcont : ctx.search_list.continuation with
      | none =>
        simp only [hcont] at h
        injection h with _ h2
        exact Option.noConfusion h2
      | some c =>
        simp only [hcont] at h
        injection h with h1 h2
        obtain rfl : c = tok := Option.some.inj h2
        refine ⟨by rwa [Bool.not_eq_true] at hlm, rfl, ?_⟩
        rw [← h1]
  · intro ctx h
    have hlm2 : (ctx.search_list.select_next.update_scroll 20).loading_more = true := by
      rw [update_scroll_loading_more, select_next_loading_more]
      exact h
    have hcond := should_load_more_false_of_loading_more _ hlm2
    unfold onListDownSearch
    rw [if_neg (by simp [hcond])]
    refine ⟨rfl, ?_⟩
    show (ctx.search_list.select_next.update_scroll 20).loading_more = true
    exact hlm2

/-- Witness for C6: a pending job (flag set after the first scroll of the
scenario context) suppresses the spawn on the next scroll. -/
theorem claim_C6_witness :
    (onListDownSearch ctxC6).1.search_list.loading_more = true ∧
    (onListDownSearch (onListDownSearch ctxC6).1).2 = none ∧
    (onListDownSearch (onListDownSearch ctxC6).1).1.search_list.loading_more = true :=
  ⟨by decide,
   (claim_C6_load_more_dedup.2.1 (onListDownSearch ctxC6).1 (by decide)).1,
   (claim_C6_load_more_dedup.2.1 (onListDownSearch ctxC6).1 (by decide)).2⟩

/-- C9 counterexample: the `NetworkEvent::Error` arm does not reset the
history list's `loading_more` flag, so on a state where that flag is set it
stays set — against the claim that every loading/loading-more flag across
all lists is reset. -/
theorem claim_C9_counterexample :
    (handleNetworkError errCtx9 "network down" 0).1.history_list.loading_more = true :=
  rfl

/-- C9 (amended): on a network Error event the reducer resets the loading
flags of the history, search and library lists and the search list's
loading-more flag (the only load-more flag the reducer ever sets), surfaces
a time-limited error toast (expired once more than 3 seconds have passed),
sets the retry status line, and launches no job. -/
theorem claim_C9_error_resets_loading (s : ErrorCtx) (e : String) (now : Nat) :
    (handleNetworkError s e now).1.history_list.loading = false ∧
    (handleNetworkError s e now).1.search_list.loading = false ∧
    (handleNetworkError s e now).1.search_list.loading_more = false ∧
    (handleNetworkError s e now).1.library_list.loading = false ∧
    (handleNetworkError s e now).1.toast = some (Toast.error e now) ∧
    (Toast.error e now).kind = ToastKind.error ∧
    (Toast.error e now).is_expired (now + 4) = true ∧
    (handleNetworkError s e now).2 = [] ∧
    (handleNetworkError s e now).1.status = "Error: " ++ e ++ " (press r to retry)" := by
  refine ⟨rfl, rfl, rfl, rfl, rfl, rfl, ?_, rfl, rfl⟩
  unfold Toast.is_expired Toast.error
  simp only [decide_eq_true_eq]
  omega

end VoidApp
